import Mathlib

/-!
Shallow embedding of the `vec-2d` Rust crate (src/lib.rs, src/vec2d_error.rs).

The crate stores a flat `Vec<T>` (`tiles`) together with a `width`; the height
is derived as `tiles.len() / width`.  `Vec<T>` is modelled as `List T`, `usize`
as `Nat` (no arithmetic in the crate depends on fixed-width wraparound for the
properties below), `Option<&T>` / `Option<&mut T>` as `Option T`, fallible
constructors (`Result<_, Vec2dError>`) as `Except Vec2dError _`, and the two
possible panic sites of the `Index`/`IndexMut` impls as an `Except PanicKind _`
result distinguishing the explicit width check from `Vec`'s own bounds check.
-/

namespace Vec2dSpec

/-- `src/vec2d_error.rs`: the error enum (payloads kept). -/
inductive Vec2dError where
  | WidthOrHeightIs0 (width height : Nat)
  | WidthOrInputLenIs0 (width input_len : Nat)
  | InputNotDivisibleByWidth (width input_len : Nat)
  deriving Repr, DecidableEq

/-- Which of the two checks aborted a fatal (`Index`/`IndexMut`) access:
the explicit `x >= self.width` panic in the impl, or the backing `Vec`'s
own bounds check on `self.tiles[idx]`. -/
inductive PanicKind where
  | widthCheck
  | vecBounds
  deriving Repr, DecidableEq

/-- `struct Vec2d<T> { tiles: Vec<T>, width: usize }`. -/
structure Vec2d (T : Type) where
  tiles : List T
  width : Nat
  deriving Repr, DecidableEq

namespace Vec2d

variable {T : Type} {S : Type}

/-- `Vec2d::new(default, width, height)`.  The loop pushes `no_tiles - 1`
clones of `default` (`for _ in 1..no_tiles`) and then pushes `default`
itself, so on success `tiles` holds `no_tiles` copies. -/
def new (default : T) (width height : Nat) : Except Vec2dError (Vec2d T) :=
  let no_tiles := width * height
  if no_tiles = 0 then
    .error (.WidthOrHeightIs0 width height)
  else
    .ok { tiles := List.replicate (no_tiles - 1) default ++ [default], width := width }

/-- `Vec2d::new_from_vec(input, width)`. -/
def new_from_vec (input : List T) (width : Nat) : Except Vec2dError (Vec2d T) :=
  if input.length = 0 ∨ width = 0 then
    .error (.WidthOrInputLenIs0 width input.length)
  else if input.length % width ≠ 0 then
    .error (.InputNotDivisibleByWidth width input.length)
  else
    .ok { tiles := input, width := width }

/-- `Vec2d::width`. -/
def width' (g : Vec2d T) : Nat := g.width

/-- `Vec2d::height`: `self.tiles.len() / self.width()`. -/
def height (g : Vec2d T) : Nat := g.tiles.length / g.width

/-- `Vec2d::tiles` (shared borrow of the backing vector). -/
def tilesRef (g : Vec2d T) : List T := g.tiles

/-- `Vec2d::get(x, y)`: width check, then `self.tiles.get(y * self.width + x)`. -/
def get (g : Vec2d T) (x y : Nat) : Option T :=
  if x ≥ g.width then none
  else g.tiles[y * g.width + x]?

/-- `Vec2d::get_mut(x, y)`: same checks as `get`; the element the returned
mutable reference points at. -/
def get_mut (g : Vec2d T) (x y : Nat) : Option T :=
  if x ≥ g.width then none
  else g.tiles[y * g.width + x]?

/-- Writing through the mutable reference returned by `get_mut(x, y)`:
the grid with the element at `y * width + x` replaced.  `none` when
`get_mut` itself returns `None`. -/
def get_mut_set (g : Vec2d T) (x y : Nat) (v : T) : Option (Vec2d T) :=
  if x ≥ g.width then none
  else if y * g.width + x < g.tiles.length then
    some { g with tiles := g.tiles.set (y * g.width + x) v }
  else none

/-- `impl Index<Pos> for Vec2d`: panics (`PanicKind.widthCheck`) when
`x >= self.width`, otherwise `&self.tiles[y * self.width + x]`, which
panics (`PanicKind.vecBounds`) when the index is out of bounds. -/
def index (g : Vec2d T) (x y : Nat) : Except PanicKind T :=
  if x ≥ g.width then .error .widthCheck
  else
    match g.tiles[y * g.width + x]? with
    | some t => .ok t
    | none => .error .vecBounds

/-- `impl IndexMut<Pos> for Vec2d`, observed through a write: same two
panic sites as `index`, and on success the element at `y * width + x`
is replaced. -/
def index_set (g : Vec2d T) (x y : Nat) (v : T) : Except PanicKind (Vec2d T) :=
  if x ≥ g.width then .error .widthCheck
  else if y * g.width + x < g.tiles.length then
    .ok { g with tiles := g.tiles.set (y * g.width + x) v }
  else .error .vecBounds

/-- The slice `l[a..b]` of a Rust `Vec`/slice. -/
def slice (l : List T) (a b : Nat) : List T := (l.drop a).take (b - a)

/-- `Vec2d::get_row(y)`: bound check against `self.tiles.len() / self.width`,
then the slice `self.tiles[y * self.width .. (y+1) * self.width]`. -/
def get_row (g : Vec2d T) (y : Nat) : Option (List T) :=
  if y ≥ g.tiles.length / g.width then none
  else some (slice g.tiles (y * g.width) ((y + 1) * g.width))

/-- `Vec2d::get_row_mut(y)`: identical bounds and range as `get_row`. -/
def get_row_mut (g : Vec2d T) (y : Nat) : Option (List T) :=
  if y ≥ g.tiles.length / g.width then none
  else some (slice g.tiles (y * g.width) ((y + 1) * g.width))

/-- Rust's `slice::rchunks(n)`: chunks of length `n` taken from the end
of the slice; the final (front-most) chunk may be shorter.  `rchunks(0)`
panics in Rust; we return `[]` for `n = 0`, a case no caller reaches
(`width > 0` for every constructed grid). -/
def rchunksList (l : List T) (n : Nat) : List (List T) :=
  if n = 0 then []
  else if _h : l.length = 0 then []
  else l.drop (l.length - n) :: rchunksList (l.take (l.length - n)) n
termination_by l.length
decreasing_by
  simp only [List.length_take]
  omega

/-- `Vec2d::iter_rows`: `self.tiles.rchunks(self.width)`, materialised. -/
def iter_rows (g : Vec2d T) : List (List T) := rchunksList g.tiles g.width

/-- `Vec2d::iter_rows_mut`: same chunking as `iter_rows`. -/
def iter_rows_mut (g : Vec2d T) : List (List T) := rchunksList g.tiles g.width

/-- `Vec2d::iter_with_pos`: `tiles.iter().enumerate().map(|(nr, tile)|
((nr % width, nr / width), tile))`, materialised. -/
def iter_with_pos (g : Vec2d T) : List ((Nat × Nat) × T) :=
  g.tiles.enum.map (fun p => ((p.1 % g.width, p.1 / g.width), p.2))

/-- `Vec2d::iter_xy`: `(0..width).map(|i| (i, 0..height))`, materialised. -/
def iter_xy (g : Vec2d T) : List (Nat × List Nat) :=
  (List.range g.width).map (fun i => (i, List.range g.height))

/-- A left-to-right traversal applying a stateful function to each element
in order, threading the closure's captured state: the meaning of
`self.tiles.iter_mut().for_each(fun)` for an `FnMut` closure. -/
def forEachMut (f : S → T → S × T) : S → List T → S × List T
  | s, [] => (s, [])
  | s, t :: ts =>
    let p := f s t
    let q := forEachMut f p.1 ts
    (q.1, p.2 :: q.2)

/-- `Vec2d::for_each_tile(fun)`: applies the (possibly stateful) mutating
closure to every tile in backing-vector order. -/
def for_each_tile (g : Vec2d T) (f : S → T → S × T) (s : S) : S × Vec2d T :=
  let p := forEachMut f s g.tiles
  (p.1, { g with tiles := p.2 })

/-- `Vec2d::to_vec`: consumes the grid, handing back the backing vector. -/
def to_vec (g : Vec2d T) : List T := g.tiles

/-- A grid obtained from a successful run of one of the two public
constructors. -/
def Constructed (g : Vec2d T) : Prop :=
  (∃ d w h, new d w h = .ok g) ∨ (∃ l w, new_from_vec l w = .ok g)

/-- The structural invariant every constructed grid enjoys. -/
def Inv (g : Vec2d T) : Prop :=
  0 < g.width ∧ 0 < g.tiles.length ∧ g.tiles.length % g.width = 0

end Vec2d

namespace Vec2d

variable {T : Type} {S : Type}

lemma new_ok (d : T) (w h : Nat) (g : Vec2d T) (hok : new d w h = .ok g) :
    w ≠ 0 ∧ h ≠ 0 ∧ g = ⟨List.replicate (w * h) d, w⟩ := by
  unfold new at hok
  by_cases h0 : w * h = 0
  · simp [h0] at hok
  · simp only [h0, if_neg, ite_false] at hok
    rcases Nat.mul_ne_zero_iff.mp h0 with ⟨hw, hh⟩
    refine ⟨hw, hh, ?_⟩
    cases hok
    have hrep : List.replicate (w * h - 1) d ++ [d] = List.replicate (w * h) d := by
      have : w * h - 1 + 1 = w * h := Nat.succ_pred_eq_of_pos (Nat.pos_of_ne_zero h0)
      rw [← List.replicate_succ' (w * h - 1) d, this]
    simp [hrep]

lemma new_from_vec_ok (l : List T) (w : Nat) (g : Vec2d T)
    (hok : new_from_vec l w = .ok g) :
    l.length ≠ 0 ∧ w ≠ 0 ∧ l.length % w = 0 ∧ g = ⟨l, w⟩ := by
  unfold new_from_vec at hok
  split at hok
  · cases hok
  · rename_i h0
    push_neg at h0
    split at hok
    · cases hok
    · rename_i h1
      have h1' : l.length % w = 0 := by omega
      cases hok
      exact ⟨h0.1, h0.2, h1', rfl⟩

lemma constructed_inv (g : Vec2d T) (hc : Constructed g) : Inv g := by
  rcases hc with ⟨d, w, h, hok⟩ | ⟨l, w, hok⟩
  · rcases new_ok d w h g hok with ⟨hw, hh, rfl⟩
    refine ⟨Nat.pos_of_ne_zero hw, ?_, ?_⟩
    · simpa using Nat.mul_pos (Nat.pos_of_ne_zero hw) (Nat.pos_of_ne_zero hh)
    · simp [Nat.mul_mod_right]
  · rcases new_from_vec_ok l w g hok with ⟨hl, hw, hmod, rfl⟩
    exact ⟨Nat.pos_of_ne_zero hw, Nat.pos_of_ne_zero hl, hmod⟩

lemma inv_len (g : Vec2d T) (hi : Inv g) :
    g.tiles.length = g.width * g.height := by
  rcases hi with ⟨hw, _, hmod⟩
  have hd : g.width ∣ g.tiles.length := Nat.dvd_of_mod_eq_zero hmod
  unfold height
  exact (Nat.mul_div_cancel' hd).symm

lemma inv_height_pos (g : Vec2d T) (hi : Inv g) : 0 < g.height := by
  rcases hi with ⟨hw, hpos, hmod⟩
  exact Nat.div_pos (Nat.le_of_dvd hpos (Nat.dvd_of_mod_eq_zero hmod)) hw

lemma idx_lt_of_lt (g : Vec2d T) (hi : Inv g) {x y : Nat}
    (hx : x < g.width) (hy : y < g.height) :
    y * g.width + x < g.tiles.length := by
  have hlen := inv_len g hi
  have h2 : (y + 1) * g.width ≤ g.height * g.width :=
    Nat.mul_le_mul_right g.width hy
  have h1 : (y + 1) * g.width = y * g.width + g.width := Nat.succ_mul y g.width
  have h3 : g.width * g.height = g.height * g.width := Nat.mul_comm _ _
  omega

lemma len_le_idx_of_ge (g : Vec2d T) (hi : Inv g) {x y : Nat}
    (hy : g.height ≤ y) :
    g.tiles.length ≤ y * g.width + x := by
  have hlen := inv_len g hi
  have h2 : g.height * g.width ≤ y * g.width :=
    Nat.mul_le_mul_right g.width hy
  have h3 : g.width * g.height = g.height * g.width := Nat.mul_comm _ _
  omega

end Vec2d

open Vec2d

/-- C1: for every constructed grid, `get(x, y)` returns the element at
backing index `y*width + x` when `x < width` and `y < height`, and `none`
when `x >= width` or (`x < width` and) `y >= height`; `get_mut` has
exactly the same bounds semantics and designates the same element. -/
theorem C1_get_bounds {T : Type} (g : Vec2d T) (hc : g.Constructed) (x y : Nat) :
    (x < g.width → y < g.height →
      ∃ t, g.tiles[y * g.width + x]? = some t ∧ g.get x y = some t ∧ g.get_mut x y = some t)
    ∧ (g.width ≤ x → g.get x y = none ∧ g.get_mut x y = none)
    ∧ (x < g.width → g.height ≤ y → g.get x y = none ∧ g.get_mut x y = none) := by
  have hi := constructed_inv g hc
  refine ⟨?_, ?_, ?_⟩
  · intro hx hy
    have hlt := idx_lt_of_lt g hi hx hy
    refine ⟨g.tiles[y * g.width + x], List.getElem?_eq_getElem hlt, ?_, ?_⟩ <;>
      simp [Vec2d.get, Vec2d.get_mut, Nat.not_le.mpr hx, List.getElem?_eq_getElem hlt]
  · intro hx
    constructor <;> simp [Vec2d.get, Vec2d.get_mut, hx]
  · intro hx hy
    have hge := len_le_idx_of_ge g hi (x := x) hy
    constructor <;>
      simp [Vec2d.get, Vec2d.get_mut, Nat.not_le.mpr hx, List.getElem?_eq_none hge]

/-- C1 witness: concrete 2×3 grid built by `new`. -/
theorem C1_witness :
    (Vec2d.mk [10, 11, 12, 13, 14, 15] 2).get 2 2 = none ∧
      (Vec2d.mk [10, 11, 12, 13, 14, 15] 2).get_mut 2 2 = none :=
  (C1_get_bounds (Vec2d.mk ([10, 11, 12, 13, 14, 15] : List Nat) 2)
    (Or.inr ⟨[10, 11, 12, 13, 14, 15], 2, rfl⟩) 2 2).2.1 (by decide)

/-- C2: for every constructed grid, direct indexed access `grid[(x, y)]`
panics via the explicit width check when `x >= width`; for `x < width`
and `y < height` it returns the same element as `get(x, y)`, the one at
backing index `y*width + x`; and for `x < width`, `y >= height` it panics
via the backing vector's own bounds check. -/
theorem C2_index_bounds {T : Type} (g : Vec2d T) (hc : g.Constructed) (x y : Nat) :
    (x < g.width → y < g.height →
      ∃ t, g.index x y = .ok t ∧ g.get x y = some t ∧ g.tiles[y * g.width + x]? = some t)
    ∧ (g.width ≤ x → g.index x y = .error .widthCheck)
    ∧ (x < g.width → g.height ≤ y → g.index x y = .error .vecBounds) := by
  have hi := constructed_inv g hc
  refine ⟨?_, ?_, ?_⟩
  · intro hx hy
    have hlt := idx_lt_of_lt g hi hx hy
    refine ⟨g.tiles[y * g.width + x], ?_, ?_, List.getElem?_eq_getElem hlt⟩ <;>
      simp [Vec2d.index, Vec2d.get, Nat.not_le.mpr hx, List.getElem?_eq_getElem hlt]
  · intro hx
    simp [Vec2d.index, hx]
  · intro hx hy
    have hge := len_le_idx_of_ge g hi (x := x) hy
    simp [Vec2d.index, Nat.not_le.mpr hx, List.getElem?_eq_none hge]

/-- C2 witness: concrete 2×3 grid; out-of-range `x` hits the width check. -/
theorem C2_witness :
    (Vec2d.mk [10, 11, 12, 13, 14, 15] 2).index 2 0 = .error .widthCheck :=
  (C2_index_bounds (Vec2d.mk ([10, 11, 12, 13, 14, 15] : List Nat) 2)
    (Or.inr ⟨[10, 11, 12, 13, 14, 15], 2, rfl⟩) 2 0).2.1 (by decide)

/-- C3: `new(default, w, h)` fails with the dimension error exactly when
`w = 0` or `h = 0`; otherwise it succeeds and the grid's backing vector is
`w*h` copies of the default, with stored width `w` and derived height `h`. -/
theorem C3_new_filled {T : Type} (d : T) (w h : Nat) :
    (Vec2d.new d w h = .error (.WidthOrHeightIs0 w h) ↔ (w = 0 ∨ h = 0))
    ∧ (w ≠ 0 → h ≠ 0 →
        ∃ g, Vec2d.new d w h = .ok g ∧ g.tiles = List.replicate (w * h) d ∧
          g.width = w ∧ g.height = h) := by
  constructor
  · constructor
    · intro he
      simp only [Vec2d.new] at he
      split at he
      · rename_i h0
        exact Nat.mul_eq_zero.mp h0
      · cases he
    · intro h0
      have h1 : w * h = 0 := by rcases h0 with h0 | h0 <;> simp [h0]
      simp [Vec2d.new, h1]
  · intro hw hh
    have h0 : w * h ≠ 0 := Nat.mul_ne_zero hw hh
    have hrep : List.replicate (w * h - 1) d ++ [d] = List.replicate (w * h) d := by
      have hs : w * h - 1 + 1 = w * h := Nat.succ_pred_eq_of_pos (Nat.pos_of_ne_zero h0)
      rw [← List.replicate_succ' (w * h - 1) d, hs]
    refine ⟨⟨List.replicate (w * h) d, w⟩, ?_, rfl, rfl, ?_⟩
    · simp [Vec2d.new, h0, hrep]
    · simp only [Vec2d.height, List.length_replicate]
      exact Nat.mul_div_cancel_left h (Nat.pos_of_ne_zero hw)

/-- C3 witness: `new 7 2 3` succeeds with six copies of 7, width 2, height 3. -/
theorem C3_witness :
    ∃ g, Vec2d.new (7 : Nat) 2 3 = .ok g ∧ g.tiles = List.replicate (2 * 3) 7 ∧
      g.width = 2 ∧ g.height = 3 :=
  (C3_new_filled (7 : Nat) 2 3).2 (by decide) (by decide)

/-- C4: `new_from_vec(l, w)` fails with `WidthOrInputLenIs0` exactly when
`l` is empty or `w = 0`, with `InputNotDivisibleByWidth` exactly when `l`
is non-empty, `w > 0` and `l.length % w ≠ 0`, and otherwise succeeds,
adopting `l` unchanged with width `w` and height `l.length / w`. -/
theorem C4_new_from_vec_cases {T : Type} (l : List T) (w : Nat) :
    (Vec2d.new_from_vec l w = .error (.WidthOrInputLenIs0 w l.length) ↔
      (l.length = 0 ∨ w = 0))
    ∧ (Vec2d.new_from_vec l w = .error (.InputNotDivisibleByWidth w l.length) ↔
      (l.length ≠ 0 ∧ w ≠ 0 ∧ l.length % w ≠ 0))
    ∧ (l.length ≠ 0 → w ≠ 0 → l.length % w = 0 →
        ∃ g, Vec2d.new_from_vec l w = .ok g ∧ g.tiles = l ∧ g.width = w ∧
          g.height = l.length / w) := by
  by_cases h0 : l.length = 0 ∨ w = 0
  · have herr : Vec2d.new_from_vec l w = .error (.WidthOrInputLenIs0 w l.length) := by
      unfold Vec2d.new_from_vec
      rw [if_pos h0]
    refine ⟨iff_of_true herr h0, ?_, ?_⟩
    · rw [herr]
      exact iff_of_false (by simp) (by tauto)
    · intro h1 h2 _
      exact absurd h0 (by tauto)
  · push_neg at h0
    have hcond : ¬(l.length = 0 ∨ w = 0) := by tauto
    by_cases h1 : l.length % w = 0
    · have hok : Vec2d.new_from_vec l w = .ok ⟨l, w⟩ := by
        unfold Vec2d.new_from_vec
        rw [if_neg hcond, if_neg (by simpa using h1)]
      refine ⟨?_, ?_, ?_⟩
      · rw [hok]
        exact iff_of_false (by simp) (by tauto)
      · rw [hok]
        exact iff_of_false (by simp) (by tauto)
      · intro _ _ _
        exact ⟨⟨l, w⟩, hok, rfl, rfl, rfl⟩
    · have herr : Vec2d.new_from_vec l w = .error (.InputNotDivisibleByWidth w l.length) := by
        unfold Vec2d.new_from_vec
        rw [if_neg hcond, if_pos (by simpa using h1)]
      refine ⟨?_, ?_, ?_⟩
      · rw [herr]
        exact iff_of_false (by simp) (by tauto)
      · rw [herr]
        exact iff_of_true rfl ⟨h0.1, h0.2, h1⟩
      · intro _ _ h2
        exact absurd h2 h1

/-- C4 witness: `new_from_vec [1,2,3,4] 2` succeeds with height 2. -/
theorem C4_witness :
    ∃ g, Vec2d.new_from_vec ([1, 2, 3, 4] : List Nat) 2 = .ok g ∧
      g.tiles = [1, 2, 3, 4] ∧ g.width = 2 ∧
      g.height = ([1, 2, 3, 4] : List Nat).length / 2 :=
  (C4_new_from_vec_cases ([1, 2, 3, 4] : List Nat) 2).2.2
    (by decide) (by decide) (by decide)

/-- C5: for every `l` and `w` on which `new_from_vec` succeeds, consuming
the grid with `to_vec` hands back exactly the adopted vector `l`. -/
theorem C5_roundtrip {T : Type} (l : List T) (w : Nat) (g : Vec2d T)
    (hok : Vec2d.new_from_vec l w = .ok g) : g.to_vec = l := by
  rcases new_from_vec_ok l w g hok with ⟨-, -, -, rfl⟩
  rfl

/-- C5 witness: round-trip on `[1,2,3,4]` with width 2. -/
theorem C5_witness :
    (Vec2d.mk ([1, 2, 3, 4] : List Nat) 2).to_vec = [1, 2, 3, 4] :=
  C5_roundtrip [1, 2, 3, 4] 2 (Vec2d.mk [1, 2, 3, 4] 2) rfl

lemma slice_take {T : Type} (l : List T) (m a b : Nat) (hbm : b ≤ m) :
    Vec2d.slice (l.take m) a b = Vec2d.slice l a b := by
  unfold Vec2d.slice
  rw [List.drop_take, List.take_take, inf_eq_left.mpr (by omega : b - a ≤ m - a)]

lemma rchunksList_spec {T : Type} (w : Nat) (hw : 0 < w) :
    ∀ h (l : List T), l.length = w * h →
      (rchunksList l w).length = h ∧
      (∀ k, k < h → (rchunksList l w)[k]? =
          some (Vec2d.slice l ((h - 1 - k) * w) ((h - k) * w))) := by
  have hw' : ¬(w = 0) := Nat.pos_iff_ne_zero.mp hw
  intro h
  induction h with
  | zero =>
    intro l hl
    have h0 : l.length = 0 := by simpa using hl
    have hnil : l = [] := List.length_eq_zero.mp h0
    subst hnil
    constructor
    · rw [rchunksList]
      simp [hw']
    · intro k hk
      omega
  | succ n ih =>
    intro l hl
    have hne : l.length ≠ 0 := by
      rw [hl]
      exact Nat.mul_ne_zero hw' (Nat.succ_ne_zero n)
    have hms : w * (n + 1) = w * n + w := Nat.mul_succ w n
    have hlt : l.length - w = w * n := by omega
    have htake : (l.take (l.length - w)).length = w * n := by
      simp only [List.length_take]
      rw [hlt]
      exact inf_eq_left.mpr (by omega)
    obtain ⟨ihlen, ihget⟩ := ih (l.take (l.length - w)) htake
    constructor
    · rw [rchunksList, if_neg hw', dif_neg hne]
      simp [ihlen]
    · intro k hk
      rw [rchunksList, if_neg hw', dif_neg hne]
      cases k with
      | zero =>
        simp only [List.getElem?_cons_zero, Option.some.injEq, Nat.sub_zero]
        have en : n + 1 - 1 = n := rfl
        rw [en]
        unfold Vec2d.slice
        have e2 : (n + 1) * w - n * w = w := by
          rw [Nat.succ_mul]
          omega
        rw [e2]
        have e3 : n * w = l.length - w := by
          rw [hlt, Nat.mul_comm]
        rw [e3]
        have hdl : (l.drop (l.length - w)).length ≤ w := by
          simp only [List.length_drop]
          omega
        exact (List.take_of_length_le hdl).symm
      | succ j =>
        have hj : j < n := by omega
        have eA : (n + 1 - 1 - (j + 1)) = n - 1 - j := by omega
        have eB : (n + 1 - (j + 1)) = n - j := by omega
        rw [List.getElem?_cons_succ, ihget j hj, eA, eB]
        congr 1
        apply slice_take
    -- remaining goal of slice_take: (n - j) * w ≤ l.length - w
        rw [hlt]
        calc (n - j) * w ≤ n * w := Nat.mul_le_mul_right w (by omega)
        _ = w * n := Nat.mul_comm n w

lemma rchunksList_flatten {T : Type} (n : Nat) (hn : 0 < n) :
    ∀ N l, (l : List T).length ≤ N → ((rchunksList l n).reverse).flatten = l := by
  have hn' : ¬(n = 0) := Nat.pos_iff_ne_zero.mp hn
  intro N
  induction N with
  | zero =>
    intro l hl
    have h0 : l.length = 0 := by omega
    have hnil : l = [] := List.length_eq_zero.mp h0
    subst hnil
    rw [rchunksList]
    simp [hn']
  | succ N ih =>
    intro l hl
    by_cases h0 : l.length = 0
    · have hnil : l = [] := List.length_eq_zero.mp h0
      subst hnil
      rw [rchunksList]
      simp [hn']
    · rw [rchunksList, if_neg hn', dif_neg h0]
      simp only [List.reverse_cons, List.flatten_append, List.flatten_cons,
        List.flatten_nil, List.append_nil]
      rw [ih (l.take (l.length - n)) (by simp only [List.length_take]; omega)]
      exact List.take_append_drop _ l

/-- C6: `iter_with_pos` yields exactly `width*height` pairs; the `k`-th
pair is `((k % width, k / width), tiles[k])` (row-major backing order,
`x` fastest-varying); the yielded coordinates contain no duplicate and
cover every valid coordinate pair; and for every yielded pair the indexed
access `grid[(x, y)]` returns exactly the yielded element. -/
theorem C6_iter_with_pos_spec {T : Type} (g : Vec2d T) (hc : g.Constructed) :
    (g.iter_with_pos).length = g.width * g.height
    ∧ (∀ k, (g.iter_with_pos)[k]? =
        (g.tiles[k]?).map (fun t => ((k % g.width, k / g.width), t)))
    ∧ ((g.iter_with_pos).map Prod.fst).Nodup
    ∧ (∀ x y, x < g.width → y < g.height →
        (x, y) ∈ (g.iter_with_pos).map Prod.fst)
    ∧ (∀ p ∈ g.iter_with_pos, g.index p.1.1 p.1.2 = .ok p.2) := by
  have hi := constructed_inv g hc
  have hlen := inv_len g hi
  have hmap : (g.iter_with_pos).map Prod.fst
      = (List.range g.tiles.length).map (fun k => (k % g.width, k / g.width)) := by
    unfold Vec2d.iter_with_pos
    rw [← List.enum_map_fst g.tiles, List.map_map, List.map_map]
    rfl
  refine ⟨?_, ?_, ?_, ?_, ?_⟩
  · simp [Vec2d.iter_with_pos, List.enum_length, hlen]
  · intro k
    simp only [Vec2d.iter_with_pos, List.getElem?_map, List.getElem?_enum]
    cases g.tiles[k]? <;> simp
  · rw [hmap]
    refine List.Nodup.map ?_ (List.nodup_range _)
    intro a b hab
    have h1 : a % g.width = b % g.width := congrArg Prod.fst hab
    have h2 : a / g.width = b / g.width := congrArg Prod.snd hab
    have ha := Nat.div_add_mod a g.width
    have hb := Nat.div_add_mod b g.width
    rw [h1, h2] at ha
    omega
  · intro x y hx hy
    rw [hmap]
    refine List.mem_map.mpr
      ⟨y * g.width + x, List.mem_range.mpr (idx_lt_of_lt g hi hx hy), ?_⟩
    have hcomm : y * g.width + x = x + y * g.width := Nat.add_comm _ _
    rw [hcomm]
    simp [Nat.add_mul_mod_self_right, Nat.mod_eq_of_lt hx,
      Nat.add_mul_div_right x y hi.1, Nat.div_eq_of_lt hx]
  · intro p hp
    obtain ⟨q, hq, rfl⟩ := List.mem_map.mp hp
    obtain ⟨k, hk, hkq⟩ := List.getElem_of_mem hq
    rw [List.getElem_enum] at hkq
    subst hkq
    have hk1 : k < g.tiles.length := by
      have := List.enum_length (l := g.tiles)
      omega
    have hx : k % g.width < g.width := Nat.mod_lt _ hi.1
    have hy : (k / g.width) * g.width + k % g.width = k := by
      have hdm := Nat.div_add_mod k g.width
      have hcm : (k / g.width) * g.width = g.width * (k / g.width) := Nat.mul_comm _ _
      omega
    simp only [Vec2d.index, ge_iff_le, Nat.not_le.mpr hx, if_neg, ite_false, hy,
      List.getElem?_eq_getElem hk1, not_le]

/-- C6 witness: pair count on a concrete 2×2 grid. -/
theorem C6_witness :
    ((Vec2d.mk ([5, 6, 7, 8] : List Nat) 2).iter_with_pos).length =
      (Vec2d.mk ([5, 6, 7, 8] : List Nat) 2).width *
        (Vec2d.mk ([5, 6, 7, 8] : List Nat) 2).height :=
  (C6_iter_with_pos_spec (Vec2d.mk ([5, 6, 7, 8] : List Nat) 2)
    (Or.inr ⟨[5, 6, 7, 8], 2, rfl⟩)).1

lemma slice_row_length {T : Type} (g : Vec2d T) (hi : Inv g) (y : Nat)
    (hy : y < g.height) :
    (Vec2d.slice g.tiles (y * g.width) ((y + 1) * g.width)).length = g.width := by
  have hlen := inv_len g hi
  unfold Vec2d.slice
  simp only [List.length_take, List.length_drop]
  have e1 : (y + 1) * g.width = y * g.width + g.width := Nat.succ_mul y g.width
  have e2 : (y + 1) * g.width ≤ g.height * g.width :=
    Nat.mul_le_mul_right g.width hy
  have e3 : g.width * g.height = g.height * g.width := Nat.mul_comm _ _
  omega

/-- C7: `get_row(y)` returns the contiguous slice `[y*width, (y+1)*width)`
of the backing vector when `y < height` and `none` when `y >= height`;
`iter_rows` yields exactly `height` rows of length `width` that partition
the backing vector, but in reverse order: its `k`-th row equals
`get_row (height - 1 - k)`. -/
theorem C7_rows_spec {T : Type} (g : Vec2d T) (hc : g.Constructed) :
    (∀ y, y < g.height →
        g.get_row y = some (Vec2d.slice g.tiles (y * g.width) ((y + 1) * g.width)))
    ∧ (∀ y, g.height ≤ y → g.get_row y = none)
    ∧ (g.iter_rows).length = g.height
    ∧ (∀ r ∈ g.iter_rows, r.length = g.width)
    ∧ (∀ k, k < g.height → (g.iter_rows)[k]? = g.get_row (g.height - 1 - k))
    ∧ ((g.iter_rows).reverse).flatten = g.tiles := by
  have hi := constructed_inv g hc
  have hlen := inv_len g hi
  have hh : g.tiles.length / g.width = g.height := rfl
  have hiter : g.iter_rows = rchunksList g.tiles g.width := rfl
  obtain ⟨hrlen, hrget⟩ := rchunksList_spec g.width hi.1 g.height g.tiles hlen
  have hrow_some : ∀ y, y < g.height →
      g.get_row y = some (Vec2d.slice g.tiles (y * g.width) ((y + 1) * g.width)) := by
    intro y hy
    unfold Vec2d.get_row
    rw [hh, if_neg (by omega)]
  refine ⟨hrow_some, ?_, ?_, ?_, ?_, ?_⟩
  · intro y hy
    unfold Vec2d.get_row
    rw [hh, if_pos hy]
  · rw [hiter]
    exact hrlen
  · intro r hr
    rw [hiter] at hr
    obtain ⟨k, hk, hkr⟩ := List.getElem_of_mem hr
    have hk' : k < g.height := by
      rw [hrlen] at hk
      exact hk
    have h1 : (rchunksList g.tiles g.width)[k]? = some r := by
      rw [List.getElem?_eq_getElem hk, hkr]
    have hr2 := Option.some.inj (h1.symm.trans (hrget k hk'))
    have hy : g.height - 1 - k < g.height := by omega
    have eB : (g.height - 1 - k) + 1 = g.height - k := by omega
    rw [hr2]
    have := slice_row_length g hi (g.height - 1 - k) hy
    rw [eB] at this
    exact this
  · intro k hk
    have hy : g.height - 1 - k < g.height := by omega
    have eB : (g.height - 1 - k) + 1 = g.height - k := by omega
    rw [hrow_some (g.height - 1 - k) hy, hiter, hrget k hk, eB]
  · rw [hiter]
    exact rchunksList_flatten g.width hi.1 g.tiles.length g.tiles (Nat.le_refl _)

/-- C7 witness: row count on a concrete 2×2 grid. -/
theorem C7_witness :
    ((Vec2d.mk ([1, 2, 3, 4] : List Nat) 2).iter_rows).length =
      (Vec2d.mk ([1, 2, 3, 4] : List Nat) 2).height :=
  (C7_rows_spec (Vec2d.mk ([1, 2, 3, 4] : List Nat) 2)
    (Or.inr ⟨[1, 2, 3, 4], 2, rfl⟩)).2.2.1

lemma forEachMut_snd_length {T S : Type} (f : S → T → S × T) (s : S) (l : List T) :
    (forEachMut f s l).2.length = l.length := by
  induction l generalizing s with
  | nil => rfl
  | cons t ts ih => simp [forEachMut, ih]

lemma forEachMut_stateless {T S : Type} (f : T → T) (s : S) (l : List T) :
    forEachMut (fun s t => (s, f t)) s l = (s, l.map f) := by
  induction l generalizing s with
  | nil => rfl
  | cons t ts ih => simp [forEachMut, ih]

lemma forEachMut_log {T : Type} (f : T → T) (s : List T) (l : List T) :
    forEachMut (fun s t => (s ++ [t], f t)) s l = (s ++ l, l.map f) := by
  induction l generalizing s with
  | nil => simp [forEachMut]
  | cons t ts ih => simp [forEachMut, ih]

/-- C8: every constructed grid satisfies `tiles.length = width * height`,
`tiles.length % width = 0`, `width > 0` when the backing vector is
non-empty, and `height = tiles.length / width`; and the mutating
operations (`for_each_tile`, writes through `IndexMut` and `get_mut`)
never change the backing vector's length or the stored width. -/
theorem C8_structural_invariant {T S : Type} (g : Vec2d T) (hc : g.Constructed)
    (f : S → T → S × T) (s : S) (x y : Nat) (v : T) :
    g.tiles.length = g.width * g.height
    ∧ g.tiles.length % g.width = 0
    ∧ (g.tiles ≠ [] → 0 < g.width)
    ∧ g.height = g.tiles.length / g.width
    ∧ ((g.for_each_tile f s).2.tiles.length = g.tiles.length
        ∧ (g.for_each_tile f s).2.width = g.width)
    ∧ (∀ g1, g.index_set x y v = .ok g1 →
        g1.tiles.length = g.tiles.length ∧ g1.width = g.width)
    ∧ (∀ g1, g.get_mut_set x y v = some g1 →
        g1.tiles.length = g.tiles.length ∧ g1.width = g.width) := by
  have hi := constructed_inv g hc
  refine ⟨inv_len g hi, hi.2.2, fun _ => hi.1, rfl, ⟨?_, rfl⟩, ?_, ?_⟩
  · exact forEachMut_snd_length f s g.tiles
  · intro g1 h
    unfold Vec2d.index_set at h
    split at h
    · cases h
    · split at h
      · cases h
        exact ⟨by simp, rfl⟩
      · cases h
  · intro g1 h
    unfold Vec2d.get_mut_set at h
    split at h
    · cases h
    · split at h
      · cases h
        exact ⟨by simp, rfl⟩
      · cases h

/-- C8 witness: the invariant equations at a concrete 1×2 grid. -/
theorem C8_witness :
    (Vec2d.mk ([1, 2] : List Nat) 1).tiles.length =
      (Vec2d.mk ([1, 2] : List Nat) 1).width * (Vec2d.mk ([1, 2] : List Nat) 1).height :=
  (C8_structural_invariant (Vec2d.mk ([1, 2] : List Nat) 1)
    (Or.inr ⟨[1, 2], 1, rfl⟩) (fun (s : Unit) t => (s, t)) () 0 0 5).1

/-- C9: `for_each_tile` applies the closure to every element exactly once
in backing-vector order: with a logging closure the visited elements, in
visit order, are exactly the backing vector; the elements become their
images under the closure; and setting every tile to a constant leaves the
backing vector equal to `width*height` copies of that constant. -/
theorem C9_for_each_tile_order {T : Type} (g : Vec2d T) (hc : g.Constructed)
    (f : T → T) (c : T) :
    (g.for_each_tile (fun (s : List T) t => (s ++ [t], f t)) []).1 = g.tiles
    ∧ (g.for_each_tile (fun (s : List T) t => (s ++ [t], f t)) []).2.tiles = g.tiles.map f
    ∧ (g.for_each_tile (fun (s : Unit) _t => (s, c)) ()).2.tiles
        = List.replicate (g.width * g.height) c := by
  have hi := constructed_inv g hc
  have hlen := inv_len g hi
  refine ⟨?_, ?_, ?_⟩
  · simp [Vec2d.for_each_tile, forEachMut_log]
  · simp [Vec2d.for_each_tile, forEachMut_log]
  · simp only [Vec2d.for_each_tile, forEachMut_stateless (fun _ => c) () g.tiles]
    rw [List.map_const', hlen]

/-- C9 witness: constant write on a concrete 2×2 grid. -/
theorem C9_witness :
    ((Vec2d.mk ([1, 2, 3, 4] : List Nat) 2).for_each_tile
        (fun (s : Unit) _t => (s, 9)) ()).2.tiles
      = List.replicate ((Vec2d.mk ([1, 2, 3, 4] : List Nat) 2).width *
          (Vec2d.mk ([1, 2, 3, 4] : List Nat) 2).height) 9 :=
  (C9_for_each_tile_order (Vec2d.mk ([1, 2, 3, 4] : List Nat) 2)
    (Or.inr ⟨[1, 2, 3, 4], 2, rfl⟩) id 9).2.2

/-- C10: every constructed grid has positive width, a non-empty backing
vector, and positive height, so the divisions by `width` in `height`,
`get_row` and `get_row_mut` never divide by zero. -/
theorem C10_positive_dims {T : Type} (g : Vec2d T) (hc : g.Constructed) :
    1 ≤ g.width ∧ g.tiles ≠ [] ∧ 1 ≤ g.height := by
  have hi := constructed_inv g hc
  refine ⟨hi.1, ?_, inv_height_pos g hi⟩
  have hlen := hi.2.1
  intro hnil
  simp [hnil] at hlen

/-- C10 witness: the 1×1 grid built by `new 5 1 1`. -/
theorem C10_witness :
    1 ≤ (Vec2d.mk ([5] : List Nat) 1).width ∧
      (Vec2d.mk ([5] : List Nat) 1).tiles ≠ [] ∧
      1 ≤ (Vec2d.mk ([5] : List Nat) 1).height :=
  C10_positive_dims (Vec2d.mk ([5] : List Nat) 1) (Or.inl ⟨5, 1, 1, rfl⟩)

end Vec2dSpec
